import Mathlib

/-!
Verification of the candidate-resolution engine of the bump-chart price
reconciliation tool.

The development shallowly embeds the pure selection logic of the repository:

* `src/bump_charts/plex_api.py` — identity resolution
  (`_select_part_key_from_rows`, the two-phase selection of
  `retrieve_part_key`) and price resolution (`_select_price_from_rows`,
  `_fuzzy_match_customer`, `_pick_best_price_row`);
* `src/bump_charts/readers.py` — price-column selection
  (`_map_customer_to_header`, `_select_price_column`), the per-row
  customer splitting of `_extract_parts_from_rows`, and
  `_find_most_recent_price`;
* `src/bump_charts/utils.py` — `compute_effective_month_start`;
* `compare_prices.py` — the status/filter glue of `_process_part` and
  `main`.

Machine datetimes (`datetime` / `pandas.Timestamp`) are modelled as a
six-field record of naturals ordered lexicographically; prices as `ℚ`;
cells that the source parses with `int(...)` / `float(...)` are modelled
as already-parsed optional values (parse failure = `none`).  Network,
file and logging side effects are outside the embedded fragment: every
embedded function is the pure row-selection logic that the source runs
on the rows it has already been handed.
-/

namespace BumpCharts

/-! ## Datetime model

`datetime` values compare lexicographically by
(year, month, day, hour, minute, second); microseconds never matter for
the embedded code paths. -/

structure DateTime where
  year : Nat
  month : Nat
  day : Nat
  hour : Nat
  minute : Nat
  second : Nat
deriving DecidableEq, Repr

/-- Strict `<` on datetimes, lexicographic as in Python `datetime`. -/
def dtLt (a b : DateTime) : Bool :=
  decide (a.year < b.year) ||
    (a.year == b.year && (decide (a.month < b.month) ||
      (a.month == b.month && (decide (a.day < b.day) ||
        (a.day == b.day && (decide (a.hour < b.hour) ||
          (a.hour == b.hour && (decide (a.minute < b.minute) ||
            (a.minute == b.minute && decide (a.second < b.second))))))))))

/-! ## Generic first-best selection

Python's `min(xs, key=...)` and `sorted(xs, key=...)[0]` both return the
first element of the list attaining the minimal key: a left fold that
replaces the current best only when the new element is strictly better.
`foldBest better b l` is that fold with initial best `b`;
`pickFirstBy better l` is the same over a possibly empty list. -/

def foldBest (better : α → α → Bool) (b : α) : List α → α
  | [] => b
  | x :: xs => foldBest better (if better x b then x else b) xs

def pickFirstBy (better : α → α → Bool) : List α → Option α
  | [] => none
  | x :: xs => some (foldBest better x xs)

/-! ## String helpers

Python's substring operator `a in b` over the characters of the two
strings. -/

/-- `leadsWith a b`: the character list `a` is an initial segment of `b`. -/
def leadsWith : List Char → List Char → Bool
  | [], _ => true
  | _ :: _, [] => false
  | a :: as, b :: bs => a == b && leadsWith as bs

/-- `charsContain needle hay`: `needle` occurs contiguously in `hay`. -/
def charsContain (needle : List Char) : List Char → Bool
  | [] => needle.isEmpty
  | c :: rest => leadsWith needle (c :: rest) || charsContain needle rest

/-- Python `needle in hay` on strings. -/
def occursIn (needle hay : String) : Bool :=
  charsContain needle.toList hay.toList

/-- Python `str.lower()`. -/
def strLower (s : String) : String := String.mk (s.data.map Char.toLower)

/-- Python `str.strip()`. -/
def strStrip (s : String) : String :=
  String.mk (((s.data.dropWhile Char.isWhitespace).reverse.dropWhile
    Char.isWhitespace).reverse)

/-- Python `str.split(",")`. -/
def splitCommaAux : List Char → List Char → List String
  | [], acc => [String.mk acc.reverse]
  | c :: rest, acc =>
      if c == ',' then String.mk acc.reverse :: splitCommaAux rest []
      else splitCommaAux rest (c :: acc)

def splitOnComma (s : String) : List String := splitCommaAux s.data []

/-! ## Identity resolution (`plex_api._select_part_key_from_rows`)

A response row after the header columns `Part_Key`, `Part_Status`,
`Revision`, `Customer_Code` have been resolved; `partStatus = none`
models a SQL `NULL` (Python `None`, which the source converts to `""`),
and `revision = none` models a revision that is `None`, `""`, or fails
`float(...)` (the source treats all of these as `-inf`). -/

structure IdRow where
  partKey : String
  partStatus : Option String
  revision : Option ℚ
  customerCode : String
deriving DecidableEq, Repr

/-- The fixed lifecycle priority list of `_select_part_key_from_rows`. -/
def status_order : List String :=
  ["Service", "Production", "Prototype", "Development", "Obsolete"]

/-- `rank` of the sort key in `_select_part_key_from_rows.sort_key`:
index in `status_order`, or its length for an unlisted status. -/
def statusRank (r : IdRow) : Nat :=
  let sv := r.partStatus.getD ""
  match status_order.findIdx? (fun s => s == sv) with
  | some i => i
  | none => status_order.length

/-- Strict comparison of revision values under the source's `-inf`
convention: `none` (missing / unparseable) is below every number. -/
def revLt : Option ℚ → Option ℚ → Bool
  | none, some _ => true
  | some a, some b => decide (a < b)
  | _, _ => false

/-- Strict "sorts earlier" comparison corresponding to the tuple key
`(rank, -revision_val)` of `sort_key`: lower status rank first, then
higher revision first. -/
def keyLt (a b : IdRow) : Bool :=
  decide (statusRank a < statusRank b) ||
    (statusRank a == statusRank b && revLt b.revision a.revision)

/-- `sorted(candidate_rows, key=sort_key)[0]`: the first row attaining
the minimal sort key (Python's sort is stable). -/
def selectBestRow (rows : List IdRow) : Option IdRow :=
  pickFirstBy keyLt rows

/-- Normalisation `str(x).strip().lower()` applied to customer codes. -/
def normCode (s : String) : String := strLower (strStrip s)

/-- The customer filter of `_select_part_key_from_rows`: rows whose
normalised customer code equals the (already normalised) `customer_code`,
when one was given; the loop is skipped for an empty code. -/
def matchingRows (rows : List IdRow) (customer_code : String) : List IdRow :=
  if customer_code ≠ "" then
    rows.filter (fun r => normCode r.customerCode == customer_code)
  else []

/-- `candidate_rows = matching_rows if enforce_customer else (matching_rows or rows)`. -/
def candidateRows (rows : List IdRow) (customer_code : String)
    (enforce_customer : Bool) : List IdRow :=
  let matching := matchingRows rows customer_code
  if enforce_customer then matching
  else if matching.isEmpty then rows else matching

/-- `_select_part_key_from_rows` on rows whose required columns resolved
(the `ValueError` path for missing columns, like the empty-input path,
returns `(None, "")`). -/
def select_part_key_from_rows (rows : List IdRow) (customer_code : String)
    (enforce_customer : Bool) : Option String × String :=
  if rows.isEmpty then (none, "")
  else
    let cand := candidateRows rows customer_code enforce_customer
    if cand.isEmpty then (none, "")
    else
      match selectBestRow cand with
      | some best => (some best.partKey, "")
      | none => (none, "")

/-- The two-phase selection of `retrieve_part_key` (cache and transport
stripped): select from the `Part_No` lookup's rows; if that yields no
key, select from the `Customer_Part_No` lookup's rows.  Both calls pass
`enforce_customer = True`, as in the source. -/
def retrieve_part_key_selects (primary_rows secondary_rows : List IdRow)
    (normalized_customer : String) : Option String × String :=
  let first := select_part_key_from_rows primary_rows normalized_customer true
  match first.1 with
  | some k => (some k, first.2)
  | none => select_part_key_from_rows secondary_rows normalized_customer true

/-! ## Date formatting (`strftime`) -/

def pad2 (n : Nat) : String :=
  if n < 10 then "0" ++ toString n else toString n

def pad4 (n : Nat) : String :=
  if n < 10 then "000" ++ toString n
  else if n < 100 then "00" ++ toString n
  else if n < 1000 then "0" ++ toString n
  else toString n

/-- `format(d, "%Y-%m-%d")`. -/
def fmtYmd (d : DateTime) : String :=
  pad4 d.year ++ "-" ++ pad2 d.month ++ "-" ++ pad2 d.day

/-- `strftime("%Y-%m-%dT%H:%M:%SZ")`. -/
def fmtIso (d : DateTime) : String :=
  fmtYmd d ++ "T" ++ pad2 d.hour ++ ":" ++ pad2 d.minute ++ ":" ++ pad2 d.second ++ "Z"

/-! ## Price resolution (`plex_api._select_price_from_rows` and helpers)

A price response row after the `Customer_Name`, `Unit_Price`,
`Require_Ship_Date` and `PO_No` columns have been resolved.
`shipDate = none` models a `Require_Ship_Date` cell that
`pd.to_datetime(..., errors="coerce")` fails to parse. -/

structure PriceRow where
  customerName : String
  price : ℚ
  shipDate : Option DateTime
  poNo : String
deriving DecidableEq, Repr

/-- Outcome triple `(api_price, status, po_no)` of `_select_price_from_rows`. -/
structure PriceOutcome where
  price : ℚ
  status : String
  poNo : String
deriving DecidableEq, Repr

/-- `_fuzzy_match_customer`: first known name (in iteration order) that
contains or is contained in the target, case-insensitively, with length
difference at most 2; returns the candidate as stored in the set. -/
def fuzzy_match_customer (target : String) (candidates : List String) : Option String :=
  let t := strStrip (strLower target)
  candidates.findSome? (fun cand =>
    let cl := strStrip (strLower cand)
    if (occursIn t cl || occursIn cl t) && decide (Nat.dist t.length cl.length ≤ 2)
    then some cand else none)

/-- The future-date filter of `_pick_best_price_row`:
`if row_date and row_date > today: continue`. -/
def notFuture (today : DateTime) (r : PriceRow) : Bool :=
  match r.shipDate with
  | some d => !(dtLt today d)
  | none => true

/-- The "older" test of `_pick_best_price_row`:
`start_threshold and row_date is not None and row_date < start_threshold`. -/
def isOlder (th : Option DateTime) (r : PriceRow) : Bool :=
  match th, r.shipDate with
  | some t, some d => dtLt d t
  | _, _ => false

/-- `usable_recent` of `_pick_best_price_row`: non-future rows that are
not older than the threshold (rows without a parseable date included). -/
def recentRows (rows : List PriceRow) (th : Option DateTime) (today : DateTime) :
    List PriceRow :=
  rows.filter (fun r => notFuture today r && !(isOlder th r))

/-- `older_rows` of `_pick_best_price_row`. -/
def olderRows (rows : List PriceRow) (th : Option DateTime) (today : DateTime) :
    List PriceRow :=
  rows.filter (fun r => notFuture today r && isOlder th r)

/-- Python `max(item[1] for item in group if item[1] is not None)` over a
group of rows, `none` when no row has a date. -/
def maxDFold (acc : Option DateTime) : List PriceRow → Option DateTime
  | [] => acc
  | r :: rest =>
      maxDFold
        (match acc, r.shipDate with
         | none, d => d
         | some b, none => some b
         | some b, some d => if dtLt b d then some d else some b)
        rest

def maxDateOf (l : List PriceRow) : Option DateTime := maxDFold none l

/-- Python `min(...)` over the dates of a group, `none` when dateless. -/
def minDFold (acc : Option DateTime) : List PriceRow → Option DateTime
  | [] => acc
  | r :: rest =>
      minDFold
        (match acc, r.shipDate with
         | none, d => d
         | some b, none => some b
         | some b, some d => if dtLt d b then some d else some b)
        rest

def minDateOf (l : List PriceRow) : Option DateTime := minDFold none l

/-- `|float(row[price_idx]) - chart_price|` (the embedded price cell is
already numeric, so the `except: inf` branch does not arise). -/
def gapBetter (cp : ℚ) (x y : PriceRow) : Bool :=
  decide (|x.price - cp| < |y.price - cp|)

/-- `min(candidates, key=price_gap)`: first row with minimal price gap. -/
def minByGap (cp : ℚ) (l : List PriceRow) : Option PriceRow :=
  pickFirstBy (gapBetter cp) l

/-- The group's best date: max over `usable_recent`, min over
`older_rows`. -/
def groupBestDate (g : List PriceRow) (useMax : Bool) : Option DateTime :=
  if useMax then maxDateOf g else minDateOf g

/-- `[item[0] for item in group if item[1] == best_date]` when a best
date exists, the whole group when the group is dateless. -/
def groupCandidates (g : List PriceRow) (bd : Option DateTime) : List PriceRow :=
  match bd with
  | some b => g.filter (fun r => r.shipDate == some b)
  | none => g

/-- `min(candidates, key=price_gap) if len(candidates) > 1 and
chart_price is not None else candidates[0]`. -/
def groupSelect (candidates : List PriceRow) (cp : Option ℚ) : Option PriceRow :=
  match cp with
  | some c => if 1 < candidates.length then minByGap c candidates else candidates.head?
  | none => candidates.head?

/-- Common body of the two branches of `_pick_best_price_row`: take the
best (max for `usable_recent`, min for `older_rows`) date of the group,
restrict to rows carrying exactly that date (all rows when the group is
dateless), then pick by price proximity when more than one candidate and
a reference price is present, else the first candidate. -/
def pickGroup (g : List PriceRow) (cp : Option ℚ) (useMax : Bool) :
    Option (PriceRow × Option DateTime) :=
  (groupSelect (groupCandidates g (groupBestDate g useMax)) cp).map
    (fun r => (r, groupBestDate g useMax))

/-- `_pick_best_price_row` (the date parsing of each row's
`Require_Ship_Date` is already reflected in `shipDate`).  Returns the
selected row, the date of the group it was chosen from, and the
`used_old_price` flag. -/
def pick_best_price_row (rows : List PriceRow) (cp : Option ℚ)
    (th : Option DateTime) (today : DateTime) :
    Option (PriceRow × Option DateTime × Bool) :=
  if rows.isEmpty then none
  else
    let recent := recentRows rows th today
    let older := olderRows rows th today
    if !recent.isEmpty then
      (pickGroup recent cp true).map (fun p => (p.1, p.2, false))
    else if !older.isEmpty then
      (pickGroup older cp false).map (fun p => (p.1, p.2, true))
    else none

/-- The customer filter of `_select_price_from_rows`: when a fuzzy match
was found, keep rows whose normalised name passes the same
substring+length test against the matched name; otherwise all rows. -/
def filtered_price_rows (rows : List PriceRow) (customer_name : String)
    (all_customer_names : List String) : List PriceRow :=
  let matched := if customer_name ≠ "" then
    fuzzy_match_customer customer_name all_customer_names else none
  match matched with
  | some mc =>
      rows.filter (fun r =>
        let ac := strLower (strStrip r.customerName)
        (occursIn mc ac || occursIn ac mc) &&
          decide (Nat.dist ac.length mc.length ≤ 2))
  | none => rows

/-- `_select_price_from_rows` after column resolution and threshold
parsing (`start_threshold : Option DateTime` is the parsed
`date_begin_str`; the missing-columns `ValueError` path is outside this
embedding, which presumes the four columns resolved). -/
def select_price_from_rows (rows : List PriceRow) (customer_name : String)
    (all_customer_names : List String) (chart_price : ℚ)
    (start_threshold : Option DateTime) (today : DateTime) : PriceOutcome :=
  let matched := if customer_name ≠ "" then
    fuzzy_match_customer customer_name all_customer_names else none
  let filtered := filtered_price_rows rows customer_name all_customer_names
  if filtered.isEmpty then
    if matched.isSome then
      ⟨chart_price, "No PO\x27s under " ++ customer_name ++ " found", ""⟩
    else
      ⟨chart_price, "No PO\x27s exist yet", ""⟩
  else
    match pick_best_price_row filtered (some chart_price) start_threshold today with
    | none => ⟨chart_price, "No suitable PO found", ""⟩
    | some (row, selDate, usedOld) =>
        let status := match usedOld, selDate with
          | true, some d => "Old Price from " ++ fmtYmd d
          | _, _ => "Success"
        ⟨row.price, status, row.poNo⟩

/-! ## Spreadsheet extraction (`readers.py`) -/

/-- `config.PRICE_COLUMN_PRIORITIES`. -/
def PRICE_COLUMN_PRIORITIES : List String := ["ddp price", "fca price"]

/-- `config.CUSTOM_PRICE_COLUMN_MAP` in insertion order. -/
def CUSTOM_PRICE_COLUMN_MAP : List (String × String) :=
  [("lear", "factory zero"), ("adient", "lansing"), ("magna", "springhill")]

/-- `_map_customer_to_header`: first mapping whose key is a
case-insensitive substring of the customer name. -/
def map_customer_to_header (customer_name : String) : Option String :=
  let customer_lower := strLower customer_name
  CUSTOM_PRICE_COLUMN_MAP.findSome? (fun kv =>
    if occursIn (strLower kv.1) customer_lower then some kv.2 else none)

/-- Python `for j in range(start, len(hl)): if p(hl[j]): return j`,
with explicit fuel (the loop runs at most `len(hl) - start` times). -/
def scanColsAux (p : String → Bool) (hl : List String) : Nat → Nat → Option Nat
  | 0, _ => none
  | fuel + 1, j =>
      if h : j < hl.length then
        if p (hl.get ⟨j, h⟩) then some j else scanColsAux p hl fuel (j + 1)
      else none

def scanCols (p : String → Bool) (hl : List String) (j : Nat) : Option Nat :=
  scanColsAux p hl (hl.length - j) j

/-- The two nested priority loops shared by `_find_price_column` and the
default branch of `_select_price_column`. -/
def prioritiesScan (cond : String → String → Bool) (hl : List String)
    (start : Nat) : Option Nat :=
  PRICE_COLUMN_PRIORITIES.findSome? (fun priority => scanCols (cond priority) hl start)

/-- The default price-column rule (exact match on a priority label first,
then substring match), scanning strictly right of the part column. -/
def defaultPriceScan (header_lower : List String) (start_idx : Nat) : Option Nat :=
  match prioritiesScan (fun priority h => h == priority) header_lower start_idx with
  | some j => some j
  | none => prioritiesScan (fun priority h => occursIn priority h) header_lower start_idx

/-- `_select_price_column`: with a customer token, try the column whose
header contains the mapped label; otherwise (or when the token has no
mapping, or the label is not found) fall back to the default rule. -/
def select_price_column (header_values : List String) (part_col_idx : Nat)
    (customer_name : Option String) : Option Nat :=
  let header_lower := header_values.map strLower
  let start_idx := part_col_idx + 1
  let tryMapped : Option Nat := match customer_name with
    | some cn =>
        match map_customer_to_header cn with
        | some mapped_header =>
            scanCols (fun h => occursIn (strLower mapped_header) h) header_lower start_idx
        | none => none
    | none => none
  match tryMapped with
  | some j => some j
  | none => defaultPriceScan header_lower start_idx

/-- A price block as discovered by `_find_price_blocks` (the default
price column is recorded but `_find_most_recent_price` recomputes the
column per customer). -/
structure Block where
  headerRow : Nat
  headerValues : List String
  partCol : Nat
  defaultPriceCol : Option Nat
  date : Option DateTime
deriving DecidableEq, Repr

/-- One spreadsheet data row: for each column index, the results of
`int(str(cell).strip())` and
`float(str(cell).replace("$", "").replace(",", "").strip())`
(`none` when the parse raises). -/
def RowCells : Type := Nat → Option Int × Option ℚ

/-- The per-block qualification of the `_find_most_recent_price` loop:
skip blocks without a date, dated after `today`, at or below the data
row, without a resolvable price column, or whose part-number/price cells
fail to parse; otherwise yield `(date, part_number, price)`. -/
def qualExtract (cells : RowCells) (row_idx : Nat) (today : DateTime)
    (customer_name : Option String) (b : Block) : Option (DateTime × Int × ℚ) :=
  match b.date with
  | none => none
  | some date_val =>
      if dtLt today date_val then none
      else if row_idx ≤ b.headerRow then none
      else
        match select_price_column b.headerValues b.partCol customer_name with
        | none => none
        | some price_col =>
            match (cells b.partCol).1, (cells price_col).2 with
            | some part_number, some price_val => some (date_val, part_number, price_val)
            | _, _ => none

/-- `_find_most_recent_price`: fold over the blocks keeping the
qualifying block with the strictly latest date (`date_val > latest_date`
to replace, so the first-discovered block wins ties). -/
def find_most_recent_price (cells : RowCells) (row_idx : Nat)
    (price_blocks : List Block) (today : DateTime)
    (customer_name : Option String) : Option (Int × ℚ × DateTime) :=
  (price_blocks.foldl
    (fun acc b =>
      match qualExtract cells row_idx today customer_name b with
      | none => acc
      | some t =>
          match acc with
          | none => some t
          | some cur => if dtLt cur.1 t.1 then some t else some cur)
    none).map (fun t => (t.2.1, t.2.2, t.1))

/-- The per-row customer handling of `_extract_parts_from_rows`: strip
the customer cell, split on commas only when one is present, and resolve
a price for each token — passing the token to the price-column selection
only for comma-separated (multi-customer) rows. -/
def extract_row_results (customer_raw : String) (cells : RowCells)
    (row_idx : Nat) (price_blocks : List Block) (today : DateTime) :
    List (String × Option (Int × ℚ × DateTime)) :=
  let customer_text := strStrip customer_raw
  let has_custom_prices := occursIn "," customer_text
  let customer_names := if has_custom_prices
    then (((splitOnComma customer_text).map strStrip).filter (fun c => c != ""))
    else [customer_text]
  customer_names.map (fun customer_name =>
    (customer_name,
      find_most_recent_price cells row_idx price_blocks today
        (if has_custom_prices then some customer_name else none)))

/-! ## Effective-month normalisation (`utils.compute_effective_month_start`)
and the `_process_part` / `main` glue of `compare_prices.py` -/

/-- Python `datetime.min` (year 1, Jan 1, midnight). -/
def datetimeMin : DateTime := ⟨1, 1, 1, 0, 0, 0⟩

/-- `compute_effective_month_start`: the parsed part date (`none` when
parsing raised, which the source maps to `datetime.min` and then replaces
with today), truncated to the first of its month at midnight, plus its
`"%Y-%m-%dT%H:%M:%SZ"` rendering. -/
def compute_effective_month_start (todayDt : DateTime) (parsed : Option DateTime) :
    DateTime × String :=
  let effective_date := match parsed with
    | some d => d
    | none => datetimeMin
  let effective_date := if effective_date = datetimeMin then todayDt else effective_date
  let month_start : DateTime :=
    ⟨effective_date.year, effective_date.month, 1, 0, 0, 0⟩
  (month_start, fmtIso month_start)

/-- The price cache key of `_process_part`:
`(part_key, customer_code_raw, pcn, shipper_begin_str)`. -/
def price_cache_key (part_key customer_code_raw pcn : String)
    (todayDt : DateTime) (part_date : Option DateTime) :
    String × String × String × String :=
  (part_key, customer_code_raw, pcn, (compute_effective_month_start todayDt part_date).2)

/-- The `(api_price, status, po_no)` outcome of `_process_part` as a
function of the part-key lookup (the in-run price cache is dropped: a
hit returns the identical triple).  `price_query` stands for
`query_price_api` on the resolved key. -/
def process_part_outcome (excel_price : ℚ) (part_key : Option String)
    (lookup_status : String) (price_query : String → ℚ × String × String) :
    ℚ × String × String :=
  match part_key with
  | none =>
      (excel_price,
       if lookup_status = "" then "No part found (no Part_Key)" else lookup_status,
       "")
  | some pk => price_query pk

/-- The report filter in `main`: a result is kept unless its status is
exactly the missing-part sentinel (that case is logged only). -/
def main_keeps (res_status : String) : Bool :=
  res_status != "No part found (no Part_Key)"

/-! ## Auxiliary definitions used by the verification -/

/-- Strict "later date" comparison on the `(date, part, price)` tuples
accumulated by the `_find_most_recent_price` fold: a new tuple replaces
the current one exactly when its date is strictly later. -/
def laterDate (t cur : DateTime × Int × ℚ) : Bool := dtLt cur.1 t.1

/-- `foldBest` continued from an optional accumulator. -/
def optFoldBest (better : α → α → Bool) : Option α → List α → Option α
  | none, [] => none
  | none, x :: xs => some (foldBest better x xs)
  | some a, xs => some (foldBest better a xs)

/-- Fixture candidates for the status/revision determinism instance:
statuses Obsolete/Production/Service with revisions 1/5/2. -/
def idObsolete : IdRow := ⟨"O", some "Obsolete", some 1, "acme"⟩

def idProduction : IdRow := ⟨"P", some "Production", some 5, "acme"⟩

def idService : IdRow := ⟨"S", some "Service", some 2, "acme"⟩

/-- Fixture candidates for the stale-fallback instance: all three rows
predate the June 2025 threshold; the two oldest share 2025-01-05 and the
closer price to the reference 7 is 6 (first of the tied gaps 1 and 1). -/
def rowsC5 : List PriceRow :=
  [⟨"c", 10, some ⟨2025, 2, 1, 0, 0, 0⟩, "A"⟩,
   ⟨"c", 6, some ⟨2025, 1, 5, 0, 0, 0⟩, "B"⟩,
   ⟨"c", 8, some ⟨2025, 1, 5, 0, 0, 0⟩, "C"⟩]

/-! ## Order and selection lemmas -/

theorem dtLt_iff (a b : DateTime) :
    dtLt a b = true ↔
      a.year < b.year ∨ (a.year = b.year ∧ (a.month < b.month ∨
        (a.month = b.month ∧ (a.day < b.day ∨ (a.day = b.day ∧
          (a.hour < b.hour ∨ (a.hour = b.hour ∧ (a.minute < b.minute ∨
            (a.minute = b.minute ∧ a.second < b.second))))))))) := by
  simp [dtLt, Bool.or_eq_true, Bool.and_eq_true, decide_eq_true_eq, beq_iff_eq]

theorem dtLt_trans {a b c : DateTime} (h1 : dtLt a b = true) (h2 : dtLt b c = true) :
    dtLt a c = true := by
  rw [dtLt_iff] at h1 h2 ⊢
  omega

theorem dtLt_asymm {a b : DateTime} (h : dtLt a b = true) : dtLt b a = false := by
  rw [dtLt_iff] at h
  cases hba : dtLt b a
  · rfl
  · rw [dtLt_iff] at hba; omega

theorem dtLt_irrefl (a : DateTime) : dtLt a a = false := by
  cases h : dtLt a a
  · rfl
  · rw [dtLt_iff] at h; omega

theorem dt_eq_of_not_lt {a b : DateTime} (h1 : dtLt a b = false) (h2 : dtLt b a = false) :
    a = b := by
  have h1' : ¬ (dtLt a b = true) := by simp [h1]
  have h2' : ¬ (dtLt b a = true) := by simp [h2]
  rw [dtLt_iff] at h1' h2'
  have hy : a.year = b.year ∧ a.month = b.month ∧ a.day = b.day ∧
      a.hour = b.hour ∧ a.minute = b.minute ∧ a.second = b.second := by omega
  obtain ⟨e1, e2, e3, e4, e5, e6⟩ := hy
  cases a; cases b
  simp_all

theorem dtLt_of_lt_of_not_lt {a b c : DateTime}
    (h1 : dtLt a b = true) (h2 : dtLt c b = false) : dtLt a c = true := by
  cases hcb : dtLt b c
  · rw [dt_eq_of_not_lt hcb h2] at h1; exact h1
  · exact dtLt_trans h1 hcb

theorem foldBest_mem (better : α → α → Bool) (b : α) (l : List α) :
    foldBest better b l ∈ b :: l := by
  induction l generalizing b with
  | nil => simp [foldBest]
  | cons x xs ih =>
    rw [show foldBest better b (x :: xs)
          = foldBest better (if better x b then x else b) xs from rfl]
    by_cases hb : better x b = true
    · rw [if_pos hb]
      rcases List.mem_cons.mp (ih x) with h' | h'
      · rw [h']; simp
      · simp [List.mem_cons, h']
    · rw [Bool.not_eq_true] at hb
      rw [if_neg (by simp [hb])]
      rcases List.mem_cons.mp (ih b) with h' | h'
      · rw [h']; simp
      · simp [List.mem_cons, h']

theorem pickFirstBy_mem {better : α → α → Bool} {l : List α} {r : α}
    (h : pickFirstBy better l = some r) : r ∈ l := by
  cases l with
  | nil => simp [pickFirstBy] at h
  | cons x xs =>
    simp only [pickFirstBy, Option.some.injEq] at h
    subst h
    exact foldBest_mem better x xs

/-- The result of `foldBest` is the first minimum: every element strictly
before it in `b :: l` is strictly worse, and nothing after it is strictly
better.  `htrans` is transitivity of the strict comparison; `hco` is the
law `a < b → ¬ (c < b) → a < c` that every comparison induced by a key
into a linear order satisfies. -/
theorem foldBest_split (better : α → α → Bool)
    (htrans : ∀ a b c, better a b = true → better b c = true → better a c = true)
    (hco : ∀ a b c, better a b = true → better c b = false → better a c = true)
    (b : α) (l : List α) :
    ∃ l1 l2, b :: l = l1 ++ foldBest better b l :: l2 ∧
      (∀ y ∈ l1, better (foldBest better b l) y = true) ∧
      (∀ y ∈ l2, better y (foldBest better b l) = false) := by
  induction l generalizing b with
  | nil =>
    refine ⟨[], [], rfl, by simp, by simp⟩
  | cons x xs ih =>
    rw [show foldBest better b (x :: xs)
          = foldBest better (if better x b then x else b) xs from rfl]
    by_cases hx : better x b = true
    · rw [if_pos hx]
      obtain ⟨m1, m2, hdec, h1, h2⟩ := ih x
      cases m1 with
      | nil =>
        rw [List.nil_append] at hdec
        injection hdec with hr hxs
        refine ⟨[b], m2, ?_, ?_, ?_⟩
        · rw [List.cons_append, List.nil_append, ← hr, ← hxs]
        · intro y hy; simp only [List.mem_singleton] at hy; subst hy
          rw [← hr]; exact hx
        · exact h2
      | cons a m1' =>
        rw [List.cons_append] at hdec
        injection hdec with hax hxs
        rw [← hax] at h1
        refine ⟨b :: x :: m1', m2, ?_, ?_, ?_⟩
        · rw [List.cons_append, List.cons_append, ← hxs]
        · intro y hy
          rcases List.mem_cons.mp hy with hy | hy
          · subst hy
            exact htrans _ _ _ (h1 _ (List.mem_cons_self _ _)) hx
          · rcases List.mem_cons.mp hy with hy | hy
            · subst hy; exact h1 _ (List.mem_cons_self _ _)
            · exact h1 y (by simp [hy])
        · exact h2
    · rw [Bool.not_eq_true] at hx
      rw [if_neg (by simp [hx])]
      obtain ⟨m1, m2, hdec, h1, h2⟩ := ih b
      cases m1 with
      | nil =>
        rw [List.nil_append] at hdec
        injection hdec with hr hxs
        rw [← hr] at h2
        refine ⟨[], x :: xs, ?_, by simp, ?_⟩
        · rw [List.nil_append, ← hr]
        · intro y hy
          rw [← hr]
          rcases List.mem_cons.mp hy with hy | hy
          · subst hy; exact hx
          · exact h2 y (hxs ▸ hy)
      | cons a m1' =>
        rw [List.cons_append] at hdec
        injection hdec with hab hxs
        rw [← hab] at h1
        refine ⟨b :: x :: m1', m2, ?_, ?_, ?_⟩
        · rw [List.cons_append, List.cons_append, ← hxs]
        · intro y hy
          rcases List.mem_cons.mp hy with hy | hy
          · subst hy; exact h1 _ (List.mem_cons_self _ _)
          · rcases List.mem_cons.mp hy with hy | hy
            · subst hy
              exact hco _ _ _ (h1 _ (List.mem_cons_self _ _)) hx
            · exact h1 y (by simp [hy])
        · exact h2

theorem pickFirstBy_split (better : α → α → Bool)
    (htrans : ∀ a b c, better a b = true → better b c = true → better a c = true)
    (hco : ∀ a b c, better a b = true → better c b = false → better a c = true)
    {l : List α} {r : α} (h : pickFirstBy better l = some r) :
    ∃ l1 l2, l = l1 ++ r :: l2 ∧
      (∀ y ∈ l1, better r y = true) ∧
      (∀ y ∈ l2, better y r = false) := by
  cases l with
  | nil => simp [pickFirstBy] at h
  | cons x xs =>
    simp only [pickFirstBy, Option.some.injEq] at h
    subst h
    exact foldBest_split better htrans hco x xs

theorem revLt_trans : ∀ {x y z : Option ℚ},
    revLt x y = true → revLt y z = true → revLt x z = true
  | none, some _, some _, _, _ => rfl
  | some _, some _, some _, h1, h2 => by
      simp only [revLt, decide_eq_true_eq] at h1 h2 ⊢
      exact h1.trans h2
  | none, none, _, h1, _ => by simp [revLt] at h1
  | _, some _, none, _, h2 => by simp [revLt] at h2
  | some _, none, _, h1, _ => by simp [revLt] at h1

theorem revLt_co2 : ∀ {x y z : Option ℚ},
    revLt x y = true → revLt x z = false → revLt z y = true
  | none, some _, none, _, _ => rfl
  | none, some _, some _, _, h2 => by simp [revLt] at h2
  | none, none, _, h1, _ => by simp [revLt] at h1
  | some _, none, _, h1, _ => by simp [revLt] at h1
  | some _, some _, none, _, _ => rfl
  | some _, some _, some _, h1, h2 => by
      simp only [revLt, decide_eq_true_eq, decide_eq_false_iff_not, not_lt] at h1 h2 ⊢
      exact lt_of_le_of_lt h2 h1

theorem keyLt_trans {a b c : IdRow} (h1 : keyLt a b = true) (h2 : keyLt b c = true) :
    keyLt a c = true := by
  simp only [keyLt, Bool.or_eq_true, Bool.and_eq_true, decide_eq_true_eq,
    beq_iff_eq] at h1 h2 ⊢
  rcases h1 with h1 | ⟨h1e, h1r⟩ <;> rcases h2 with h2 | ⟨h2e, h2r⟩
  · exact Or.inl (h1.trans h2)
  · exact Or.inl (h2e ▸ h1)
  · exact Or.inl (h1e ▸ h2)
  · exact Or.inr ⟨h1e.trans h2e, revLt_trans h2r h1r⟩

theorem keyLt_co {a b c : IdRow} (h1 : keyLt a b = true) (h2 : keyLt c b = false) :
    keyLt a c = true := by
  have h2c : ¬ (keyLt c b = true) := by simp [h2]
  simp only [keyLt, Bool.or_eq_true, Bool.and_eq_true, decide_eq_true_eq,
    beq_iff_eq] at h1 h2c ⊢
  push_neg at h2c
  obtain ⟨hrk, hrev⟩ := h2c
  rcases h1 with h1 | ⟨h1e, h1r⟩
  · exact Or.inl (lt_of_lt_of_le h1 hrk)
  · rcases Nat.eq_or_lt_of_le hrk with heq | hlt
    · have hnr : revLt b.revision c.revision = false :=
        Bool.eq_false_iff.mpr (hrev heq.symm)
      exact Or.inr ⟨h1e.trans heq, revLt_co2 h1r hnr⟩
    · exact Or.inl (by omega)


/-! ## Claim C1 -/

/-- Claim C1 (refuted; the code contradicts the spec).  The claim says
that an identity-resolution call with an empty `customerCode` and a
non-empty candidate list with the required columns uses the candidate
set as-is and returns the top-ranked identifier.  In the source,
`retrieve_part_key` calls `_select_part_key_from_rows` with
`enforce_customer=True`; with an empty customer code the filter loop is
skipped, `matching_rows` stays empty, and `candidate_rows` is therefore
empty, so the resolver returns no identifier for every such call.  The
third conjunct shows the non-enforcing path would have returned the
top-ranked key `"KEY1"` from the very same rows. -/
theorem claim_C1_empty_customer_never_resolves :
    ([⟨"KEY1", some "Production", some 1, "ACME"⟩] : List IdRow) ≠ [] ∧
    retrieve_part_key_selects
      [⟨"KEY1", some "Production", some 1, "ACME"⟩]
      [⟨"KEY1", some "Production", some 1, "ACME"⟩] "" = (none, "") ∧
    (select_part_key_from_rows
      [⟨"KEY1", some "Production", some 1, "ACME"⟩] "" false).1 = some "KEY1" := by
  refine ⟨by decide, by decide, by decide⟩

/-! ## Claim C8 -/

/-- Claim C8: with a non-empty `customerCode` and zero candidates whose
trimmed, lowercased customer code equals it, `_select_part_key_from_rows`
(called with `enforce_customer=True`, as `retrieve_part_key` always does)
returns no identifier even when unfiltered candidates exist: the
candidate set is never widened back to the unfiltered rows. -/
theorem claim_C8_customer_filter_strict (rows : List IdRow) (cc : String)
    (hcc : cc ≠ "")
    (hnone : rows.filter (fun r => normCode r.customerCode == cc) = []) :
    select_part_key_from_rows rows cc true = (none, "") := by
  by_cases hrows : rows.isEmpty
  · simp [select_part_key_from_rows, hrows]
  · simp [select_part_key_from_rows, hrows, candidateRows, matchingRows, hcc, hnone]

theorem claim_C8_customer_filter_strict_witness :
    select_part_key_from_rows
      [⟨"K1", some "Production", some 1, "other"⟩] "acme" true = (none, "") :=
  claim_C8_customer_filter_strict
    [⟨"K1", some "Production", some 1, "other"⟩] "acme" (by decide) (by decide)

/-! ## Claim C9 -/

/-- Claim C9: for every parseable row date (the pandas parse can never
produce `datetime.min`, hence the two hypotheses), the date used for the
price lookup and for the price cache key is the date's calendar month
start at midnight rendered as `"%Y-%m-%dT%H:%M:%SZ"`, so two dates in
the same calendar month give identical lookups and cache keys. -/
theorem claim_C9_month_start_collapses (todayDt d1 d2 : DateTime)
    (hy : d1.year = d2.year) (hm : d1.month = d2.month)
    (h1 : d1 ≠ datetimeMin) (h2 : d2 ≠ datetimeMin) :
    compute_effective_month_start todayDt (some d1)
        = compute_effective_month_start todayDt (some d2) ∧
    (compute_effective_month_start todayDt (some d1)).1
        = ⟨d1.year, d1.month, 1, 0, 0, 0⟩ ∧
    (compute_effective_month_start todayDt (some d1)).2
        = fmtIso ⟨d1.year, d1.month, 1, 0, 0, 0⟩ ∧
    ∀ pk cc pcn, price_cache_key pk cc pcn todayDt (some d1)
        = price_cache_key pk cc pcn todayDt (some d2) := by
  refine ⟨?_, ?_, ?_, ?_⟩ <;>
    simp [compute_effective_month_start, price_cache_key, h1, h2, hy, hm]

theorem claim_C9_month_start_collapses_witness :
    compute_effective_month_start ⟨2026, 10, 12, 0, 0, 0⟩ (some ⟨2025, 3, 2, 8, 30, 0⟩)
        = compute_effective_month_start ⟨2026, 10, 12, 0, 0, 0⟩ (some ⟨2025, 3, 30, 23, 59, 59⟩) ∧
    (compute_effective_month_start ⟨2026, 10, 12, 0, 0, 0⟩ (some ⟨2025, 3, 2, 8, 30, 0⟩)).2
        = "2025-03-01T00:00:00Z" := by
  have h := claim_C9_month_start_collapses ⟨2026, 10, 12, 0, 0, 0⟩
    ⟨2025, 3, 2, 8, 30, 0⟩ ⟨2025, 3, 30, 23, 59, 59⟩ rfl rfl (by decide) (by decide)
  exact ⟨h.1, by rw [h.2.2.1]; rfl⟩

/-! ## Claim C10 -/

/-- Claim C10: a part whose identity resolution yields no part key and an
empty lookup status gets the sentinel status
`"No part found (no Part_Key)"` and is dropped from the report by `main`
(logged only), while a part whose lookup failed with any other status
(e.g. `"Timed Out"`) keeps that status, is kept in the report, and
carries the chart price as the resolved price. -/
theorem claim_C10_missing_key_report_filter (excel_price : ℚ)
    (lookup_status : String) (price_query : String → ℚ × String × String) :
    (lookup_status = "" →
      (process_part_outcome excel_price none lookup_status price_query).2.1
          = "No part found (no Part_Key)" ∧
      main_keeps
        (process_part_outcome excel_price none lookup_status price_query).2.1 = false) ∧
    (lookup_status ≠ "" → lookup_status ≠ "No part found (no Part_Key)" →
      (process_part_outcome excel_price none lookup_status price_query).1 = excel_price ∧
      main_keeps
        (process_part_outcome excel_price none lookup_status price_query).2.1 = true) := by
  constructor
  · intro h; subst h
    simp [process_part_outcome, main_keeps]
  · intro h1 h2
    simp [process_part_outcome, main_keeps, h1, h2]

theorem claim_C10_missing_key_report_filter_witness :
    main_keeps
      (process_part_outcome 5 none "" (fun _ => (0, "", ""))).2.1 = false ∧
    (process_part_outcome 5 none "Timed Out" (fun _ => (0, "", ""))).1 = 5 ∧
    main_keeps
      (process_part_outcome 5 none "Timed Out" (fun _ => (0, "", ""))).2.1 = true := by
  refine ⟨((claim_C10_missing_key_report_filter 5 "" (fun _ => (0, "", ""))).1 rfl).2, ?_, ?_⟩
  · exact ((claim_C10_missing_key_report_filter 5 "Timed Out"
      (fun _ => (0, "", ""))).2 (by decide) (by decide)).1
  · exact ((claim_C10_missing_key_report_filter 5 "Timed Out"
      (fun _ => (0, "", ""))).2 (by decide) (by decide)).2

/-! ## Claim C2 -/

/-- Claim C2 refuted at a concrete input: the customer name `"Zebra"`
fuzzy-matches nothing in the known-name set, yet the resolver does not
return the `"No PO\x27s under ..."` status — it proceeds over the
unfiltered rows and selects a price with status `"Success"`. -/
theorem claim_C2_counterexample :
    fuzzy_match_customer "Zebra" ["lear corporation"] = none ∧
    select_price_from_rows
      [⟨"Lear Corporation", 7, some ⟨2025, 3, 4, 0, 0, 0⟩, "PO1"⟩]
      "Zebra" ["lear corporation"] 7 none ⟨2025, 6, 1, 0, 0, 0⟩
      = ⟨7, "Success", "PO1"⟩ := by
  refine ⟨by decide, by decide⟩

/-- Claim C2 as amended: when the customer name fuzzy-matches no known
name, no customer filter is applied at all — resolution proceeds exactly
as if no customer had been given; the
`"No PO\x27s under <name> found"` status (distinct from
`"No PO\x27s exist yet"`) arises precisely when a fuzzy match was found
but no returned row passes the substring+length-2 test against it, and
then no candidate is selected (the chart price is carried). -/
theorem claim_C2_amended (rows : List PriceRow) (cn : String)
    (acn : List String) (cp : ℚ) (th : Option DateTime) (today : DateTime) :
    (fuzzy_match_customer cn acn = none →
      select_price_from_rows rows cn acn cp th today
        = select_price_from_rows rows "" acn cp th today) ∧
    (∀ mc, cn ≠ "" → fuzzy_match_customer cn acn = some mc →
      (∀ r ∈ rows,
        ¬ (((occursIn mc (strLower (strStrip r.customerName))
              || occursIn (strLower (strStrip r.customerName)) mc)
            && decide (Nat.dist (strLower (strStrip r.customerName)).length
                mc.length ≤ 2)) = true)) →
      select_price_from_rows rows cn acn cp th today
        = ⟨cp, "No PO\x27s under " ++ cn ++ " found", ""⟩) := by
  constructor
  · intro hfm
    by_cases hcn : cn = ""
    · subst hcn; rfl
    · simp [select_price_from_rows, filtered_price_rows, hcn, hfm]
  · intro mc hcn hfm hall
    have hfil : filtered_price_rows rows cn acn = rows.filter (fun r =>
        ((occursIn mc (strLower (strStrip r.customerName))
            || occursIn (strLower (strStrip r.customerName)) mc)
          && decide (Nat.dist (strLower (strStrip r.customerName)).length
              mc.length ≤ 2))) := by
      simp only [filtered_price_rows, hcn, hfm, ne_eq, not_false_eq_true,
        if_true, ite_true]
    have hempty : filtered_price_rows rows cn acn = [] := by
      rw [hfil]
      exact List.filter_eq_nil_iff.mpr (by
        intro r hr
        exact hall r hr)
    simp only [select_price_from_rows, hempty, List.isEmpty_nil, if_true,
      hcn, hfm, ne_eq, not_false_eq_true, ite_true, Option.isSome_some]

theorem claim_C2_amended_witness :
    select_price_from_rows
      [⟨"Lear Corporation", 7, some ⟨2025, 3, 4, 0, 0, 0⟩, "PO1"⟩]
      "Zebra" ["lear corporation"] 7 none ⟨2025, 6, 1, 0, 0, 0⟩
      = select_price_from_rows
      [⟨"Lear Corporation", 7, some ⟨2025, 3, 4, 0, 0, 0⟩, "PO1"⟩]
      "" ["lear corporation"] 7 none ⟨2025, 6, 1, 0, 0, 0⟩ ∧
    select_price_from_rows
      [⟨"Acme Steel Inc", 7, some ⟨2025, 3, 4, 0, 0, 0⟩, "PO1"⟩]
      "Lear Corporations" ["lear corporation"] 7 none ⟨2025, 6, 1, 0, 0, 0⟩
      = ⟨7, "No PO\x27s under Lear Corporations found", ""⟩ := by
  constructor
  · exact (claim_C2_amended
      [⟨"Lear Corporation", 7, some ⟨2025, 3, 4, 0, 0, 0⟩, "PO1"⟩]
      "Zebra" ["lear corporation"] 7 none ⟨2025, 6, 1, 0, 0, 0⟩).1 (by decide)
  · exact (claim_C2_amended
      [⟨"Acme Steel Inc", 7, some ⟨2025, 3, 4, 0, 0, 0⟩, "PO1"⟩]
      "Lear Corporations" ["lear corporation"] 7 none ⟨2025, 6, 1, 0, 0, 0⟩).2
      "lear corporation" (by decide) (by decide) (by decide)

/-! ## Membership lemmas for the price selection -/

theorem head?_mem {l : List α} {a : α} (h : l.head? = some a) : a ∈ l := by
  cases l with
  | nil => simp at h
  | cons x xs =>
    simp only [List.head?_cons, Option.some.injEq] at h
    subst h
    exact List.mem_cons_self _ _

theorem groupCandidates_subset {g : List PriceRow} {bd : Option DateTime}
    {x : PriceRow} (h : x ∈ groupCandidates g bd) : x ∈ g := by
  cases bd with
  | none => exact h
  | some b => exact List.mem_of_mem_filter h

theorem groupSelect_mem {candidates : List PriceRow} {cp : Option ℚ}
    {r : PriceRow} (h : groupSelect candidates cp = some r) : r ∈ candidates := by
  cases cp with
  | none =>
    simp only [groupSelect] at h
    exact head?_mem h
  | some c =>
    simp only [groupSelect] at h
    by_cases hlen : 1 < candidates.length
    · rw [if_pos hlen] at h
      exact pickFirstBy_mem h
    · rw [if_neg hlen] at h
      exact head?_mem h

theorem pickGroup_mem {g : List PriceRow} {cp : Option ℚ} {um : Bool}
    {r : PriceRow} {d : Option DateTime}
    (h : pickGroup g cp um = some (r, d)) : r ∈ g := by
  unfold pickGroup at h
  rcases Option.map_eq_some'.mp h with ⟨r', hr', heq⟩
  simp only [Prod.mk.injEq] at heq
  obtain ⟨hre, -⟩ := heq
  subst hre
  exact groupCandidates_subset (groupSelect_mem hr')

/-- Any selection of `_pick_best_price_row` comes either from the
"recent" branch (flag `false`) or from the "older" branch (flag `true`). -/
theorem pick_best_price_row_cases {rows : List PriceRow} {cp : Option ℚ}
    {th : Option DateTime} {today : DateTime} {r : PriceRow}
    {od : Option DateTime} {ub : Bool}
    (h : pick_best_price_row rows cp th today = some (r, od, ub)) :
    (ub = false ∧ pickGroup (recentRows rows th today) cp true = some (r, od)) ∨
    (ub = true ∧ pickGroup (olderRows rows th today) cp false = some (r, od)) := by
  simp only [pick_best_price_row] at h
  by_cases h0 : rows.isEmpty = true
  · simp [h0] at h
  · rw [if_neg h0] at h
    cases h1 : (recentRows rows th today).isEmpty with
    | false =>
      rw [h1] at h
      simp only [Bool.not_false, if_true, ite_true] at h
      rcases Option.map_eq_some'.mp h with ⟨p, hp, heq⟩
      obtain ⟨p1, p2⟩ := p
      simp only [Prod.mk.injEq] at heq
      obtain ⟨he1, he2, he3⟩ := heq
      subst he1; subst he2
      exact Or.inl ⟨he3.symm, hp⟩
    | true =>
      rw [h1] at h
      simp only [Bool.not_true, if_false, ite_false] at h
      cases h2 : (olderRows rows th today).isEmpty with
      | true => rw [h2] at h; simp at h
      | false =>
        rw [h2] at h
        simp only [Bool.not_false, if_true, ite_true] at h
        rcases Option.map_eq_some'.mp h with ⟨p, hp, heq⟩
        obtain ⟨p1, p2⟩ := p
        simp only [Prod.mk.injEq] at heq
        obtain ⟨he1, he2, he3⟩ := heq
        subst he1; subst he2
        exact Or.inr ⟨he3.symm, hp⟩

/-! ## Claim C6 -/

/-- Claim C6: whatever the input list (hence for every ordering of it),
`_pick_best_price_row` never selects a row whose ship date is strictly
after `today`; and a row with no parseable ship date is always classified
into the `usable_recent` group (never excluded for staleness). -/
theorem claim_C6_future_dates_excluded :
    (∀ (rows : List PriceRow) (cp : Option ℚ) (th : Option DateTime)
        (today : DateTime) (r : PriceRow) (od : Option DateTime) (ub : Bool),
      pick_best_price_row rows cp th today = some (r, od, ub) →
      ∀ d, r.shipDate = some d → dtLt today d = false) ∧
    (∀ (rows : List PriceRow) (th : Option DateTime) (today : DateTime)
        (q : PriceRow), q ∈ rows → q.shipDate = none →
      q ∈ recentRows rows th today) := by
  constructor
  · intro rows cp th today r od ub h d hd
    have hmem : r ∈ recentRows rows th today ∨ r ∈ olderRows rows th today := by
      rcases pick_best_price_row_cases h with ⟨-, hg⟩ | ⟨-, hg⟩
      · exact Or.inl (pickGroup_mem hg)
      · exact Or.inr (pickGroup_mem hg)
    have hnf : notFuture today r = true := by
      rcases hmem with hm | hm <;>
      · have hp := (List.mem_filter.mp hm).2
        simp only [Bool.and_eq_true] at hp
        exact hp.1
    unfold notFuture at hnf
    rw [hd] at hnf
    simpa using hnf
  · intro rows th today q hq hnone
    refine List.mem_filter.mpr ⟨hq, ?_⟩
    cases th <;> simp [notFuture, isOlder, hnone]

theorem claim_C6_future_dates_excluded_witness :
    dtLt ⟨2026, 1, 1, 0, 0, 0⟩ ⟨2025, 1, 1, 0, 0, 0⟩ = false ∧
    (⟨"c", 3, none, "P"⟩ : PriceRow) ∈
      recentRows [⟨"c", 3, none, "P"⟩] none ⟨2026, 1, 1, 0, 0, 0⟩ := by
  constructor
  · exact claim_C6_future_dates_excluded.1
      [⟨"c", 3, some ⟨2025, 1, 1, 0, 0, 0⟩, "P"⟩] (some 3) none
      ⟨2026, 1, 1, 0, 0, 0⟩ ⟨"c", 3, some ⟨2025, 1, 1, 0, 0, 0⟩, "P"⟩
      (some ⟨2025, 1, 1, 0, 0, 0⟩) false (by decide) ⟨2025, 1, 1, 0, 0, 0⟩ rfl
  · exact claim_C6_future_dates_excluded.2
      [⟨"c", 3, none, "P"⟩] none ⟨2026, 1, 1, 0, 0, 0⟩
      ⟨"c", 3, none, "P"⟩ (List.mem_singleton.mpr rfl) rfl

/-! ## Claim C7 -/

/-- Claim C7: every identifier selected by `_select_part_key_from_rows`
is the first candidate (in original order) of the surviving set that is
minimal under the sort key — lifecycle-status rank in the fixed order
Service, Production, Prototype, Development, Obsolete with unlisted
statuses after all of these, then highest numeric revision (missing or
unparseable revision lowest); and on the fixture with statuses
Obsolete/Production/Service and revisions 1/5/2 the Service entry is
picked for every input order. -/
theorem claim_C7_status_revision_ranking :
    (∀ (rows : List IdRow) (cc : String) (enf : Bool) (k : String) (st : String),
      select_part_key_from_rows rows cc enf = (some k, st) →
      ∃ l1 r l2, candidateRows rows cc enf = l1 ++ r :: l2 ∧ r.partKey = k ∧
        (∀ y ∈ l1, keyLt r y = true) ∧ (∀ y ∈ l2, keyLt y r = false)) ∧
    (∀ p ∈ [[idObsolete, idProduction, idService],
            [idObsolete, idService, idProduction],
            [idProduction, idObsolete, idService],
            [idProduction, idService, idObsolete],
            [idService, idObsolete, idProduction],
            [idService, idProduction, idObsolete]],
      (select_part_key_from_rows p "acme" true).1 = some "S") := by
  constructor
  · intro rows cc enf k st h
    by_cases h0 : rows.isEmpty = true
    · simp [select_part_key_from_rows, h0] at h
    · by_cases h1 : (candidateRows rows cc enf).isEmpty = true
      · simp [select_part_key_from_rows, h0, h1] at h
      · cases hsel : selectBestRow (candidateRows rows cc enf) with
        | none => simp [select_part_key_from_rows, h0, h1, hsel] at h
        | some best =>
          have hk : best.partKey = k := by
            simp [select_part_key_from_rows, h0, h1, hsel] at h
            exact h.1
          obtain ⟨l1, l2, hdec, ha, hb⟩ :=
            pickFirstBy_split keyLt
              (fun a b c hab hbc => keyLt_trans hab hbc)
              (fun a b c hab hcb => keyLt_co hab hcb) hsel
          exact ⟨l1, best, l2, hdec, hk, ha, hb⟩
  · decide

theorem claim_C7_status_revision_ranking_witness :
    ∃ l1 r l2, candidateRows [idService, idProduction] "acme" true = l1 ++ r :: l2 ∧
      r.partKey = "S" ∧
      (∀ y ∈ l1, keyLt r y = true) ∧ (∀ y ∈ l2, keyLt y r = false) :=
  claim_C7_status_revision_ranking.1 [idService, idProduction] "acme" true "S" ""
    (by decide)

/-! ## Claim C3 -/

theorem scanColsAux_finds (p : String → Bool) (hl : List String) :
    ∀ (fuel s j : Nat), j < s + fuel → ∀ (hj : j < hl.length), s ≤ j →
    p (hl.get ⟨j, hj⟩) = true →
    (∀ i (hi : i < hl.length), s ≤ i → i < j → p (hl.get ⟨i, hi⟩) = false) →
    scanColsAux p hl fuel s = some j := by
  intro fuel
  induction fuel with
  | zero =>
    intro s j hfuel hj hsj
    omega
  | succ f ih =>
    intro s j hfuel hj hsj hpj hprev
    have hslen : s < hl.length := Nat.lt_of_le_of_lt hsj hj
    unfold scanColsAux
    rw [dif_pos hslen]
    by_cases hsj' : s = j
    · subst hsj'
      rw [if_pos hpj]
    · have hs_lt : s < j := by omega
      have hps : p (hl.get ⟨s, hslen⟩) = false :=
        hprev s hslen (Nat.le_refl s) hs_lt
      rw [if_neg (by rw [hps]; exact Bool.false_ne_true)]
      exact ih (s + 1) j (by omega) hj (by omega) hpj
        (fun i hi hi1 hi2 => hprev i hi (by omega) hi2)

/-- `scanCols` returns `j` when `j` is the first index at or after `s`
whose header satisfies the predicate. -/
theorem scanCols_finds (p : String → Bool) (hl : List String) :
    ∀ (n s j : Nat), j - s = n → ∀ (hj : j < hl.length), s ≤ j →
    p (hl.get ⟨j, hj⟩) = true →
    (∀ i (hi : i < hl.length), s ≤ i → i < j → p (hl.get ⟨i, hi⟩) = false) →
    scanCols p hl s = some j := by
  intro n s j h0 hj hsj hpj hprev
  exact scanColsAux_finds p hl (hl.length - s) s j (by omega) hj hsj hpj hprev

/-- Claim C3 refuted at a concrete input: a data row whose customer cell
is the single customer `"Lear"` (a key of the configured mapping, whose
mapped label `"factory zero"` occurs in the block header at column 1
holding price 9).  `_extract_parts_from_rows` passes no customer token
for a comma-free row, so the extractor takes the default `"DDP Price"`
column (price 5) instead of the mapped column — while the same token on a
multi-customer row, and a direct `_select_price_column` call with the
token, would use column 1. -/
theorem claim_C3_counterexample :
    extract_row_results "Lear"
      (fun j => if j == 0 then (some 123, some 123)
        else if j == 1 then (none, some 9)
        else if j == 2 then (none, some 5)
        else (none, none))
      1
      [⟨0, ["Part Number", "GM Factory Zero Price", "DDP Price"], 0, some 2,
        some ⟨2025, 1, 1, 0, 0, 0⟩⟩]
      ⟨2025, 1, 1, 0, 0, 0⟩
      = [("Lear", some (123, 5, ⟨2025, 1, 1, 0, 0, 0⟩))] ∧
    select_price_column ["Part Number", "GM Factory Zero Price", "DDP Price"]
      0 (some "Lear") = some 1 ∧
    extract_row_results "Lear, Adient"
      (fun j => if j == 0 then (some 123, some 123)
        else if j == 1 then (none, some 9)
        else if j == 2 then (none, some 5)
        else (none, none))
      1
      [⟨0, ["Part Number", "GM Factory Zero Price", "DDP Price"], 0, some 2,
        some ⟨2025, 1, 1, 0, 0, 0⟩⟩]
      ⟨2025, 1, 1, 0, 0, 0⟩
      = [("Lear", some (123, 9, ⟨2025, 1, 1, 0, 0, 0⟩)),
         ("Adient", some (123, 5, ⟨2025, 1, 1, 0, 0, 0⟩))] := by
  refine ⟨by decide, by decide, by decide⟩

/-- Claim C3 as amended: the customer→price-column-label mapping is
consulted only for tokens of comma-separated multi-customer rows.  A row
whose customer cell has no comma yields exactly one record resolved with
no customer token — the default price-column rule — even when that
customer matches a mapping key; for a multi-customer token that maps to
a label found in the block header (first column strictly right of the
part column whose lowered header contains the lowered label), that
column is selected. -/
theorem claim_C3_amended :
    (∀ (customer_raw : String) (cells : RowCells) (row_idx : Nat)
        (blocks : List Block) (today : DateTime),
      occursIn "," (strStrip customer_raw) = false →
      extract_row_results customer_raw cells row_idx blocks today
        = [(strStrip customer_raw,
            find_most_recent_price cells row_idx blocks today none)]) ∧
    (∀ (customer_raw : String) (cells : RowCells) (row_idx : Nat)
        (blocks : List Block) (today : DateTime),
      occursIn "," (strStrip customer_raw) = true →
      extract_row_results customer_raw cells row_idx blocks today
        = ((((splitOnComma (strStrip customer_raw)).map strStrip).filter
            (fun c => c != "")).map (fun nm =>
              (nm, find_most_recent_price cells row_idx blocks today (some nm))))) ∧
    (∀ (hv : List String) (pc : Nat) (tok mh : String) (j : Nat)
        (hj : j < (hv.map strLower).length),
      map_customer_to_header tok = some mh →
      pc + 1 ≤ j →
      occursIn (strLower mh) ((hv.map strLower).get ⟨j, hj⟩) = true →
      (∀ i (hi : i < (hv.map strLower).length), pc + 1 ≤ i → i < j →
        occursIn (strLower mh) ((hv.map strLower).get ⟨i, hi⟩) = false) →
      select_price_column hv pc (some tok) = some j) := by
  refine ⟨?_, ?_, ?_⟩
  · intro customer_raw cells row_idx blocks today h
    simp [extract_row_results, h]
  · intro customer_raw cells row_idx blocks today h
    simp [extract_row_results, h]
  · intro hv pc tok mh j hj hmh hpcj hpj hprev
    have hscan : scanCols (fun h => occursIn (strLower mh) h)
        (hv.map strLower) (pc + 1) = some j :=
      scanCols_finds _ _ (j - (pc + 1)) (pc + 1) j rfl hj hpcj hpj hprev
    simp only [select_price_column, hmh, hscan]

theorem claim_C3_amended_witness :
    extract_row_results "Lear"
      (fun _ => (some 1, some 1)) 1 [] ⟨2025, 1, 1, 0, 0, 0⟩
      = [("Lear", none)] ∧
    select_price_column ["Part Number", "GM Factory Zero Price", "DDP Price"]
      0 (some "Lear, Adient") = some 1 := by
  constructor
  · have h := claim_C3_amended.1 "Lear" (fun _ => (some 1, some 1)) 1 []
      ⟨2025, 1, 1, 0, 0, 0⟩ (by decide)
    rw [h]
    decide
  · exact claim_C3_amended.2.2
      ["Part Number", "GM Factory Zero Price", "DDP Price"] 0
      "Lear, Adient" "factory zero" 1 (by decide) (by decide) (by decide)
      (by decide) (by decide)

/-! ## Claim C4 -/

theorem dtLt_of_not_lt_of_lt {x y z : DateTime}
    (h1 : dtLt x y = false) (h2 : dtLt x z = true) : dtLt y z = true := by
  cases hyx : dtLt y x
  · rw [← dt_eq_of_not_lt h1 hyx]
    exact h2
  · exact dtLt_trans hyx h2

theorem optFoldBest_none_cons (better : α → α → Bool) (x : α) (l : List α) :
    optFoldBest better none (x :: l) = optFoldBest better (some x) l := by
  simp [optFoldBest]

theorem optFoldBest_some_cons (better : α → α → Bool) (a x : α) (l : List α) :
    optFoldBest better (some a) (x :: l)
      = optFoldBest better (if better x a then some x else some a) l := by
  by_cases h : better x a = true
  · simp [optFoldBest, foldBest, h]
  · simp [optFoldBest, foldBest, h]

/-- The accumulator loop of `_find_most_recent_price` is the first-best
fold over the qualifying blocks' `(date, part, price)` tuples. -/
theorem find_fold_eq (cells : RowCells) (row_idx : Nat) (today : DateTime)
    (customer_name : Option String) :
    ∀ (blocks : List Block) (acc : Option (DateTime × Int × ℚ)),
    blocks.foldl
      (fun acc b =>
        match qualExtract cells row_idx today customer_name b with
        | none => acc
        | some t =>
            match acc with
            | none => some t
            | some cur => if dtLt cur.1 t.1 then some t else some cur)
      acc
    = optFoldBest laterDate acc
        (blocks.filterMap (qualExtract cells row_idx today customer_name)) := by
  intro blocks
  induction blocks with
  | nil =>
    intro acc
    cases acc <;> simp [optFoldBest, foldBest]
  | cons b bs ih =>
    intro acc
    rw [List.foldl_cons, List.filterMap_cons]
    cases hq : qualExtract cells row_idx today customer_name b with
    | none =>
      simp only [hq]
      exact ih acc
    | some t =>
      simp only [hq]
      cases acc with
      | none =>
        rw [optFoldBest_none_cons]
        exact ih (some t)
      | some cur =>
        rw [optFoldBest_some_cons]
        simp only [laterDate]
        exact ih (if dtLt cur.1 t.1 = true then some t else some cur)

theorem find_most_recent_eq (cells : RowCells) (row_idx : Nat)
    (blocks : List Block) (today : DateTime) (customer_name : Option String) :
    find_most_recent_price cells row_idx blocks today customer_name
      = (optFoldBest laterDate none
          (blocks.filterMap (qualExtract cells row_idx today customer_name))).map
        (fun t => (t.2.1, t.2.2, t.1)) := by
  unfold find_most_recent_price
  rw [find_fold_eq]

theorem filterMap_eq_append_cons {f : β → Option α} :
    ∀ {l : List β} {l1 : List α} {r : α} {l2 : List α},
    l.filterMap f = l1 ++ r :: l2 →
    ∃ t1 b t2, l = t1 ++ b :: t2 ∧ f b = some r ∧
      t1.filterMap f = l1 ∧ t2.filterMap f = l2 := by
  intro l
  induction l with
  | nil =>
    intro l1 r l2 h
    rw [List.filterMap_nil] at h
    exact absurd h.symm (by simp)
  | cons a l ih =>
    intro l1 r l2 h
    rw [List.filterMap_cons] at h
    cases hfa : f a with
    | none =>
      rw [hfa] at h
      obtain ⟨t1, b, t2, hdec, hb, h1, h2⟩ := ih h
      exact ⟨a :: t1, b, t2, by rw [List.cons_append, hdec], hb,
        by rw [List.filterMap_cons, hfa]; exact h1, h2⟩
    | some v =>
      rw [hfa] at h
      cases l1 with
      | nil =>
        rw [List.nil_append] at h
        injection h with hv hrest
        exact ⟨[], a, l, rfl, by rw [hfa, hv], rfl, hrest⟩
      | cons y ys =>
        rw [List.cons_append] at h
        injection h with hv hrest
        obtain ⟨t1, b, t2, hdec, hb, h1, h2⟩ := ih hrest
        exact ⟨a :: t1, b, t2, by rw [List.cons_append, hdec], hb,
          by rw [List.filterMap_cons, hfa, h1, hv], h2⟩

/-- Claim C4: whenever some block qualifies for the data row (dated on or
before today, header above the row, resolvable price column, parseable
part-number and price cells), `_find_most_recent_price` returns the
values of a qualifying block such that every qualifying block before it
in discovery order has a strictly earlier date and no qualifying block
anywhere has a strictly later date: the latest effective date wins, and
equal dates resolve to the first-discovered block. -/
theorem claim_C4_latest_dated_block_wins
    (cells : RowCells) (row_idx : Nat) (blocks : List Block)
    (today : DateTime) (customer_name : Option String)
    (hq : ∃ b ∈ blocks, qualExtract cells row_idx today customer_name b ≠ none) :
    ∃ (d : DateTime) (pn : Int) (pv : ℚ) (l1 : List Block) (b : Block)
      (l2 : List Block),
      find_most_recent_price cells row_idx blocks today customer_name
        = some (pn, pv, d) ∧
      blocks = l1 ++ b :: l2 ∧
      qualExtract cells row_idx today customer_name b = some (d, pn, pv) ∧
      (∀ b' ∈ l1, ∀ d' x y,
        qualExtract cells row_idx today customer_name b' = some (d', x, y) →
        dtLt d' d = true) ∧
      (∀ b' ∈ l2, ∀ d' x y,
        qualExtract cells row_idx today customer_name b' = some (d', x, y) →
        dtLt d d' = false) := by
  obtain ⟨b0, hb0, hq0⟩ := hq
  have hne : blocks.filterMap (qualExtract cells row_idx today customer_name) ≠ [] := by
    cases hqe : qualExtract cells row_idx today customer_name b0 with
    | none => exact absurd hqe hq0
    | some t =>
      intro hnil
      have hmem : t ∈ blocks.filterMap (qualExtract cells row_idx today customer_name) :=
        List.mem_filterMap.mpr ⟨b0, hb0, hqe⟩
      rw [hnil] at hmem
      exact absurd hmem (List.not_mem_nil t)
  obtain ⟨x, xs, hxxs⟩ : ∃ x xs,
      blocks.filterMap (qualExtract cells row_idx today customer_name) = x :: xs := by
    cases hc : blocks.filterMap (qualExtract cells row_idx today customer_name) with
    | nil => exact absurd hc hne
    | cons x xs => exact ⟨x, xs, rfl⟩
  have heq := find_most_recent_eq cells row_idx blocks today customer_name
  rw [hxxs] at heq
  have hfind : find_most_recent_price cells row_idx blocks today customer_name
      = some ((foldBest laterDate x xs).2.1, (foldBest laterDate x xs).2.2,
          (foldBest laterDate x xs).1) := by
    rw [heq]; rfl
  obtain ⟨m1, m2, hdec, h1, h2⟩ :=
    foldBest_split laterDate
      (fun a b c hab hbc => dtLt_trans hbc hab)
      (fun a b c hab hcb => dtLt_of_not_lt_of_lt hcb hab)
      x xs
  rw [← hxxs] at hdec
  obtain ⟨t1, bb, t2, hbdec, hfb, hfm1, hfm2⟩ := filterMap_eq_append_cons hdec
  refine ⟨(foldBest laterDate x xs).1, (foldBest laterDate x xs).2.1,
    (foldBest laterDate x xs).2.2, t1, bb, t2, hfind, hbdec, ?_, ?_, ?_⟩
  · rw [hfb]
  · intro b' hb' d' px py hfb'
    have hm : (d', px, py) ∈ m1 := by
      rw [← hfm1]
      exact List.mem_filterMap.mpr ⟨b', hb', hfb'⟩
    exact h1 _ hm
  · intro b' hb' d' px py hfb'
    have hm : (d', px, py) ∈ m2 := by
      rw [← hfm2]
      exact List.mem_filterMap.mpr ⟨b', hb', hfb'⟩
    exact h2 _ hm

theorem claim_C4_latest_dated_block_wins_witness :
    ∃ (d : DateTime) (pn : Int) (pv : ℚ) (l1 : List Block) (b : Block)
      (l2 : List Block),
      find_most_recent_price
        (fun j => if j == 0 then (some 7, some 7)
          else if j == 1 then (none, some 2)
          else if j == 3 then (some 7, some 7)
          else if j == 4 then (none, some 3) else (none, none))
        2
        [⟨0, ["Part Number", "DDP Price"], 0, some 1, some ⟨2024, 5, 1, 0, 0, 0⟩⟩,
         ⟨0, ["Part Number", "DDP Price"], 3, some 4, some ⟨2025, 2, 1, 0, 0, 0⟩⟩]
        ⟨2025, 6, 1, 0, 0, 0⟩ none
        = some (pn, pv, d) ∧
      [⟨0, ["Part Number", "DDP Price"], 0, some 1, some ⟨2024, 5, 1, 0, 0, 0⟩⟩,
       ⟨0, ["Part Number", "DDP Price"], 3, some 4, some ⟨2025, 2, 1, 0, 0, 0⟩⟩]
        = l1 ++ b :: l2 ∧
      qualExtract
        (fun j => if j == 0 then (some 7, some 7)
          else if j == 1 then (none, some 2)
          else if j == 3 then (some 7, some 7)
          else if j == 4 then (none, some 3) else (none, none))
        2 ⟨2025, 6, 1, 0, 0, 0⟩ none b = some (d, pn, pv) ∧
      (∀ b' ∈ l1, ∀ d' x y,
        qualExtract
          (fun j => if j == 0 then (some 7, some 7)
            else if j == 1 then (none, some 2)
            else if j == 3 then (some 7, some 7)
            else if j == 4 then (none, some 3) else (none, none))
          2 ⟨2025, 6, 1, 0, 0, 0⟩ none b' = some (d', x, y) →
        dtLt d' d = true) ∧
      (∀ b' ∈ l2, ∀ d' x y,
        qualExtract
          (fun j => if j == 0 then (some 7, some 7)
            else if j == 1 then (none, some 2)
            else if j == 3 then (some 7, some 7)
            else if j == 4 then (none, some 3) else (none, none))
          2 ⟨2025, 6, 1, 0, 0, 0⟩ none b' = some (d', x, y) →
        dtLt d d' = false) :=
  claim_C4_latest_dated_block_wins _ 2 _ ⟨2025, 6, 1, 0, 0, 0⟩ none
    ⟨⟨0, ["Part Number", "DDP Price"], 0, some 1, some ⟨2024, 5, 1, 0, 0, 0⟩⟩,
      by decide, by decide⟩

/-! ## Claim C5 -/

theorem gapBetter_trans {cp : ℚ} {a b c : PriceRow}
    (h1 : gapBetter cp a b = true) (h2 : gapBetter cp b c = true) :
    gapBetter cp a c = true := by
  simp only [gapBetter, decide_eq_true_eq] at h1 h2 ⊢
  exact h1.trans h2

theorem gapBetter_co {cp : ℚ} {a b c : PriceRow}
    (h1 : gapBetter cp a b = true) (h2 : gapBetter cp c b = false) :
    gapBetter cp a c = true := by
  simp only [gapBetter, decide_eq_true_eq, decide_eq_false_iff_not,
    not_lt] at h1 h2 ⊢
  exact lt_of_lt_of_le h1 h2

/-- The accumulating `min` over the dates of a group: the result is the
least of the accumulator and every parseable date in the list, and is
attained by the accumulator or some row. -/
theorem minDFold_spec (l : List PriceRow) :
    ∀ (b : DateTime),
    ∃ m, minDFold (some b) l = some m ∧
      (m = b ∨ ∃ r ∈ l, r.shipDate = some m) ∧
      dtLt b m = false ∧
      (∀ r ∈ l, ∀ d, r.shipDate = some d → dtLt d m = false) := by
  induction l with
  | nil =>
    intro b
    exact ⟨b, rfl, Or.inl rfl, dtLt_irrefl b, by simp⟩
  | cons r rest ih =>
    intro b
    cases hrd : r.shipDate with
    | none =>
      obtain ⟨m, hm, hat, hmb, hall⟩ := ih b
      have hstep : minDFold (some b) (r :: rest) = minDFold (some b) rest := by
        simp [minDFold, hrd]
      refine ⟨m, by rw [hstep]; exact hm, ?_, hmb, ?_⟩
      · rcases hat with h | ⟨q, hq, hqd⟩
        · exact Or.inl h
        · exact Or.inr ⟨q, List.mem_cons_of_mem _ hq, hqd⟩
      · intro q hq d hd
        rcases List.mem_cons.mp hq with hq | hq
        · subst hq; rw [hrd] at hd; exact absurd hd (by simp)
        · exact hall q hq d hd
    | some d =>
      by_cases hdb : dtLt d b = true
      · obtain ⟨m, hm, hat, hmd, hall⟩ := ih d
        have hstep : minDFold (some b) (r :: rest) = minDFold (some d) rest := by
          simp [minDFold, hrd, hdb]
        refine ⟨m, by rw [hstep]; exact hm, ?_, ?_, ?_⟩
        · rcases hat with h | ⟨q, hq, hqd⟩
          · exact Or.inr ⟨r, List.mem_cons_self _ _, by rw [hrd, h]⟩
          · exact Or.inr ⟨q, List.mem_cons_of_mem _ hq, hqd⟩
        · cases hbm : dtLt b m with
          | false => rfl
          | true => exact absurd hmd (by simp [dtLt_trans hdb hbm])
        · intro q hq d' hd'
          rcases List.mem_cons.mp hq with hq | hq
          · subst hq
            rw [hrd] at hd'
            injection hd' with hdd
            subst hdd
            exact hmd
          · exact hall q hq d' hd'
      · obtain ⟨m, hm, hat, hmb, hall⟩ := ih b
        have hdb' : dtLt d b = false := by
          cases h : dtLt d b
          · rfl
          · exact absurd h hdb
        have hstep : minDFold (some b) (r :: rest) = minDFold (some b) rest := by
          simp [minDFold, hrd, hdb']
        refine ⟨m, by rw [hstep]; exact hm, ?_, hmb, ?_⟩
        · rcases hat with h | ⟨q, hq, hqd⟩
          · exact Or.inl h
          · exact Or.inr ⟨q, List.mem_cons_of_mem _ hq, hqd⟩
        · intro q hq d' hd'
          rcases List.mem_cons.mp hq with hq | hq
          · subst hq
            rw [hrd] at hd'
            injection hd' with hdd
            subst hdd
            cases hdm : dtLt d m with
            | false => rfl
            | true => exact absurd (dtLt_of_lt_of_not_lt hdm hmb) (by simp [hdb'])
          · exact hall q hq d' hd'

/-- `min(item[1] ...)` over a group whose rows all carry dates: it is a
date of some row and no row's date is strictly below it. -/
theorem minDateOf_spec (l : List PriceRow) (hne : l ≠ [])
    (hall : ∀ r ∈ l, r.shipDate ≠ none) :
    ∃ m, minDateOf l = some m ∧ (∃ r ∈ l, r.shipDate = some m) ∧
      (∀ r ∈ l, ∀ d, r.shipDate = some d → dtLt d m = false) := by
  cases l with
  | nil => exact absurd rfl hne
  | cons r rest =>
    cases hrd : r.shipDate with
    | none => exact absurd hrd (hall r (List.mem_cons_self _ _))
    | some d =>
      obtain ⟨m, hm, hat, hmd, hrest⟩ := minDFold_spec rest d
      have hstep : minDateOf (r :: rest) = minDFold (some d) rest := by
        simp [minDateOf, minDFold, hrd]
      refine ⟨m, by rw [hstep]; exact hm, ?_, ?_⟩
      · rcases hat with h | ⟨q, hq, hqd⟩
        · exact ⟨r, List.mem_cons_self _ _, by rw [hrd, h]⟩
        · exact ⟨q, List.mem_cons_of_mem _ hq, hqd⟩
      · intro q hq d' hd'
        rcases List.mem_cons.mp hq with hq | hq
        · subst hq
          rw [hrd] at hd'
          injection hd' with hdd
          subst hdd
          exact hmd
        · exact hrest q hq d' hd'

/-- `candidates[0]` / `min(candidates, key=price_gap)`: the selection is
the first candidate with minimal distance to the reference price. -/
theorem groupSelect_spec (candidates : List PriceRow) (c : ℚ)
    (hne : candidates ≠ []) :
    ∃ sel l1 l2, groupSelect candidates (some c) = some sel ∧
      candidates = l1 ++ sel :: l2 ∧
      (∀ y ∈ l1, |sel.price - c| < |y.price - c|) ∧
      (∀ y ∈ l2, |sel.price - c| ≤ |y.price - c|) := by
  cases candidates with
  | nil => exact absurd rfl hne
  | cons x xs =>
    by_cases hlen : 1 < (x :: xs).length
    · have hgs : groupSelect (x :: xs) (some c) = minByGap c (x :: xs) := by
        show (if 1 < (x :: xs).length then minByGap c (x :: xs)
          else (x :: xs).head?) = minByGap c (x :: xs)
        rw [if_pos hlen]
      obtain ⟨l1, l2, hdec, h1, h2⟩ :=
        foldBest_split (gapBetter c)
          (fun a b cc hab hbc => gapBetter_trans hab hbc)
          (fun a b cc hab hcb => gapBetter_co hab hcb) x xs
      refine ⟨foldBest (gapBetter c) x xs, l1, l2, by rw [hgs]; rfl, hdec, ?_, ?_⟩
      · intro y hy
        have h := h1 y hy
        simpa [gapBetter] using h
      · intro y hy
        have h := h2 y hy
        simp only [gapBetter, decide_eq_false_iff_not, not_lt] at h
        exact h
    · have hxs : xs = [] := by
        cases xs with
        | nil => rfl
        | cons y ys => simp at hlen
      subst hxs
      exact ⟨x, [], [], by simp [groupSelect], rfl, by simp, by simp⟩

/-- Claim C5: when every candidate surviving the customer filter has a
parseable ship date strictly before the target-month threshold and none
after today, `_select_price_from_rows` selects, among the candidates
sharing the minimum ship date, the first one whose price is numerically
closest to the reference price, and returns
`"Old Price from <that date>"` with that candidate's price and PO. -/
theorem claim_C5_stale_fallback
    (rows : List PriceRow) (cn : String) (acn : List String) (cp : ℚ)
    (t : DateTime) (today : DateTime)
    (hne : filtered_price_rows rows cn acn ≠ [])
    (hall : ∀ r ∈ filtered_price_rows rows cn acn,
      ∃ d, r.shipDate = some d ∧ dtLt d t = true ∧ dtLt today d = false) :
    ∃ (m : DateTime) (sel : PriceRow) (l1 l2 : List PriceRow),
      sel.shipDate = some m ∧
      (∀ r ∈ filtered_price_rows rows cn acn, ∀ d, r.shipDate = some d →
        dtLt d m = false) ∧
      (filtered_price_rows rows cn acn).filter
        (fun r => r.shipDate == some m) = l1 ++ sel :: l2 ∧
      (∀ y ∈ l1, |sel.price - cp| < |y.price - cp|) ∧
      (∀ y ∈ l2, |sel.price - cp| ≤ |y.price - cp|) ∧
      select_price_from_rows rows cn acn cp (some t) today
        = ⟨sel.price, "Old Price from " ++ fmtYmd m, sel.poNo⟩ := by
  have hrec : recentRows (filtered_price_rows rows cn acn) (some t) today = [] := by
    refine List.filter_eq_nil_iff.mpr ?_
    intro r hr
    obtain ⟨d, hd, hdt, hft⟩ := hall r hr
    simp [notFuture, isOlder, hd, hdt, hft]
  have hold : olderRows (filtered_price_rows rows cn acn) (some t) today
      = filtered_price_rows rows cn acn := by
    refine List.filter_eq_self.mpr ?_
    intro r hr
    obtain ⟨d, hd, hdt, hft⟩ := hall r hr
    simp [notFuture, isOlder, hd, hdt, hft]
  obtain ⟨m, hm, ⟨r0, hr0, hr0d⟩, hmin⟩ :=
    minDateOf_spec (filtered_price_rows rows cn acn) hne
      (by
        intro r hr
        obtain ⟨d, hd, -, -⟩ := hall r hr
        rw [hd]
        exact Option.some_ne_none d)
  have hgbd : groupBestDate (filtered_price_rows rows cn acn) false = some m := by
    simp [groupBestDate, hm]
  have hcne : groupCandidates (filtered_price_rows rows cn acn) (some m) ≠ [] := by
    intro hnil
    have hmem : r0 ∈ groupCandidates (filtered_price_rows rows cn acn) (some m) := by
      simp only [groupCandidates]
      exact List.mem_filter.mpr ⟨hr0, by simp [hr0d]⟩
    rw [hnil] at hmem
    exact absurd hmem (List.not_mem_nil r0)
  obtain ⟨sel, l1, l2, hgs, hdec, h1, h2⟩ :=
    groupSelect_spec (groupCandidates (filtered_price_rows rows cn acn) (some m))
      cp hcne
  have hselmem : sel ∈ groupCandidates (filtered_price_rows rows cn acn) (some m) := by
    rw [hdec]
    exact List.mem_append.mpr (Or.inr (List.mem_cons_self _ _))
  have hseld : sel.shipDate = some m := by
    have h := (List.mem_filter.mp (by
      simpa only [groupCandidates] using hselmem)).2
    simpa using h
  have hpg : pickGroup (filtered_price_rows rows cn acn) (some cp) false
      = some (sel, some m) := by
    simp [pickGroup, hgbd, hgs]
  have hFne : (filtered_price_rows rows cn acn).isEmpty = false := by
    cases hF : filtered_price_rows rows cn acn with
    | nil => exact absurd hF hne
    | cons a as => rfl
  have hrecE : (recentRows (filtered_price_rows rows cn acn) (some t) today).isEmpty
      = true := by rw [hrec]; rfl
  have holdE : (olderRows (filtered_price_rows rows cn acn) (some t) today).isEmpty
      = false := by rw [hold]; exact hFne
  have hpick : pick_best_price_row (filtered_price_rows rows cn acn) (some cp)
      (some t) today = some (sel, some m, true) := by
    simp only [pick_best_price_row, hFne, hrecE, holdE, Bool.not_true,
      Bool.not_false, if_false, if_true, ite_false, ite_true, hold, hpg]
    rfl
  refine ⟨m, sel, l1, l2, hseld, hmin, ?_, h1, h2, ?_⟩
  · simpa only [groupCandidates] using hdec
  · simp only [select_price_from_rows, hFne, ite_false, if_false, hpick]
    rfl

theorem claim_C5_stale_fallback_witness :
    ∃ (m : DateTime) (sel : PriceRow) (l1 l2 : List PriceRow),
      sel.shipDate = some m ∧
      (∀ r ∈ filtered_price_rows rowsC5 "" [], ∀ d, r.shipDate = some d →
        dtLt d m = false) ∧
      (filtered_price_rows rowsC5 "" []).filter
        (fun r => r.shipDate == some m) = l1 ++ sel :: l2 ∧
      (∀ y ∈ l1, |sel.price - 7| < |y.price - 7|) ∧
      (∀ y ∈ l2, |sel.price - 7| ≤ |y.price - 7|) ∧
      select_price_from_rows rowsC5 "" [] 7 (some ⟨2025, 6, 1, 0, 0, 0⟩)
        ⟨2026, 1, 1, 0, 0, 0⟩
        = ⟨sel.price, "Old Price from " ++ fmtYmd m, sel.poNo⟩ :=
  claim_C5_stale_fallback rowsC5 "" [] 7 ⟨2025, 6, 1, 0, 0, 0⟩ ⟨2026, 1, 1, 0, 0, 0⟩
    (by decide)
    (by
      intro r hr
      have hr' : r ∈ rowsC5 := hr
      simp only [rowsC5, List.mem_cons, List.mem_singleton,
        List.not_mem_nil, or_false] at hr'
      rcases hr' with rfl | rfl | rfl
      · exact ⟨⟨2025, 2, 1, 0, 0, 0⟩, rfl, by decide, by decide⟩
      · exact ⟨⟨2025, 1, 5, 0, 0, 0⟩, rfl, by decide, by decide⟩
      · exact ⟨⟨2025, 1, 5, 0, 0, 0⟩, rfl, by decide, by decide⟩)

end BumpCharts
